import Mathlib

/-!
Verification of the recipe-app-api association reconciler and recipe CRUD
serializer logic, shallowly embedded from the repository sources:

* `app/core/models.py` — the `Recipe`, `Tag` and `Ingredient` model
  declarations (field lists, constraint sets).
* `app/recipe/serializers.py` — `RecipeDetailSerializer` with
  `_get_or_create_tags`, `_get_or_create_ingredient`, `create` and `update`.
* `app/recipe/views.py` — `RecipeViewSet.get_queryset` and the object lookup
  it induces.

Users are identified by their primary key (a `Nat`); tag and ingredient rows
are triples of primary key, owning user and name.  the Django `get_or_create` call
becomes an explicit lookup-then-append on a table value; the many-to-many
association set of a recipe instance becomes a `Finset Nat` of related row
primary keys, since `recipe.tags.add` on a Django `ManyRelatedManager` is
idempotent (the through table holds each pair at most once).
-/

namespace RecipeApp

/-- A row of the `Tag` table (`core/models.py`, class `Tag`): primary key,
owning user (`user = models.ForeignKey(...)`) and `name`.  The `Ingredient`
table (class `Ingredient`) is declared field-for-field identically, so the
same row shape embeds both. -/
structure TagRow where
  id : Nat
  user : Nat
  name : String
deriving DecidableEq, Repr

/-- A relation table state: the list of persisted rows together with the next
auto-increment primary key the database would assign. -/
structure TagTable where
  rows : List TagRow
  nextId : Nat
deriving DecidableEq, Repr

/-- The ingredient table has exactly the same shape. -/
abbrev IngredientTable := TagTable

/-- Database well-formedness: primary keys are below the auto-increment
counter and pairwise distinct.  Every state the database engine produces
satisfies this. -/
def TagTable.WF (t : TagTable) : Prop :=
  (∀ r ∈ t.rows, r.id < t.nextId) ∧ t.rows.Pairwise (fun a b => a.id ≠ b.id)

instance (t : TagTable) : Decidable t.WF := by
  unfold TagTable.WF; infer_instance

/-- `Tag.objects.filter(user=u, name=n).first()`: the lookup half of
`Tag.objects.get_or_create(user=auth_user, **tag)` — an exact, case-sensitive
match on `name` scoped to the owner `user`. -/
def TagTable.resolve (t : TagTable) (u : Nat) (n : String) : Option TagRow :=
  t.rows.find? (fun r => r.user == u && r.name == n)

/-- `Tag.objects.get_or_create(user=u, name=n)` (`serializers.py` lines
55-58): return the existing row with this exact owner and name if present,
otherwise persist and return a fresh row carrying the next primary key. -/
def getOrCreate (u : Nat) (n : String) (t : TagTable) : TagRow × TagTable :=
  match t.resolve u n with
  | some r => (r, t)
  | none => (⟨t.nextId, u, n⟩, ⟨t.rows ++ [⟨t.nextId, u, n⟩], t.nextId + 1⟩)

/-- State of a recipe instance as the serializer layer manipulates it.
Scalar fields are those of `core/models.py` class `Recipe` (`user` the owning
foreign key, `title`, `time_minutes`, `price` — a two-decimal-place value,
embedded in hundredths —, `description`, `link`) plus the `tags` association
set.  `user` is an `Option` because `Recipe.objects.create` only sets the
fields it is handed (`none` = never assigned).  The `ingredients` association
set is the one `serializers.py` reads and writes (`recipe.ingredients.add`,
`instance.ingredients.clear`) and the test suite asserts on, although
`core/models.py` declares no such field on `Recipe` — see
`recipeModelM2MFields` below for the model-side field list. -/
structure Recipe where
  id : Nat
  user : Option Nat
  title : String
  time_minutes : Int
  price : Int
  description : String
  link : String
  tags : Finset Nat
  ingredients : Finset Nat
deriving DecidableEq

/-- The persistent state touched by the recipe serializer: both relation
tables.  (Recipe rows themselves are threaded separately as `Recipe` values
or lists of them.) -/
structure DB where
  tags : TagTable
  ingredients : IngredientTable
deriving DecidableEq

/-- `RecipeDetailSerializer._get_or_create_tags(tags, recipe)`
(`serializers.py` lines 51-59): for each requested name, in order,
get-or-create the row for the authenticated user and add it to the tag
association set of the recipe. -/
def getOrCreateTags (u : Nat) : List String → Recipe → TagTable → Recipe × TagTable
  | [], recipe, t => (recipe, t)
  | n :: rest, recipe, t =>
      getOrCreateTags u rest
        { recipe with tags := insert (getOrCreate u n t).1.id recipe.tags }
        (getOrCreate u n t).2

/-- `RecipeDetailSerializer._get_or_create_ingredient(ingredients, recipe)`
(`serializers.py` lines 61-69): identical to the tag variant, against the
ingredient table and the ingredient association set of the recipe. -/
def getOrCreateIngredient (u : Nat) : List String → Recipe → IngredientTable → Recipe × IngredientTable
  | [], recipe, t => (recipe, t)
  | n :: rest, recipe, t =>
      getOrCreateIngredient u rest
        { recipe with ingredients := insert (getOrCreate u n t).1.id recipe.ingredients }
        (getOrCreate u n t).2

/-- A value appearing in a request payload: strings for `CharField`/
`TextField`, integers for `IntegerField`, two-decimal-place amounts (in
hundredths) for `DecimalField`, a user primary key for the owning foreign
key, and a list of requested names for the nested `tags`/`ingredients`
fields (each nested dict holds exactly a `name`, per `TagSerializer` and
`IngredientSerializer`, whose field lists hold exactly `id` and `name` with `id` read-only). -/
inductive FieldVal where
  | str (v : String)
  | int (v : Int)
  | dec (v : Int)
  | usr (v : Option Nat)
  | names (v : List String)
deriving DecidableEq, Repr

/-- A request payload or the `validated_data` of a serializer: an association of
field keys to values.  Keys are unique in a Python dict; lookups below take
the first occurrence. -/
abbrev Payload := List (String × FieldVal)

/-- `dict.get(k)` on a payload. -/
def lookupKey (p : Payload) (k : String) : Option FieldVal :=
  (p.find? (fun kv => kv.1 == k)).map Prod.snd

/-- `validated_data.pop(k, None)` for the nested name-list fields: the list
of requested names when the key is present, `none` otherwise. -/
def popNames (p : Payload) (k : String) : Option (List String) :=
  match lookupKey p k with
  | some (.names v) => some v
  | _ => none

/-- The removal half of `pop`: the payload without the key. -/
def removeKey (p : Payload) (k : String) : Payload :=
  p.filter (fun kv => kv.1 != k)

/-- `RecipeSerializer.Meta.fields` (`serializers.py` lines 38-41). -/
def recipeSerializerFields : List String :=
  ["id", "title", "time_minutes", "price", "description", "link", "tags", "ingredients"]

/-- `RecipeDetailSerializer.Meta.fields` (line 49): the base list plus
`description` again. -/
def recipeDetailSerializerFields : List String :=
  recipeSerializerFields ++ ["description"]

/-- `RecipeSerializer.Meta.read_only_fields` (line 42), inherited by the
detail serializer. -/
def recipeReadOnlyFields : List String := ["id"]

/-- The fields the detail serializer will accept as input: declared fields
minus read-only ones. -/
def writableFields : List String :=
  recipeDetailSerializerFields.filter (fun f => !(recipeReadOnlyFields.contains f))

/-- DRF validation of a request payload against the detail serializer: keys
that are not writable declared fields never reach `validated_data` (unknown
keys — `user` among them — are silently dropped, read-only keys ignored). -/
def validate (p : Payload) : Payload :=
  p.filter (fun kv => writableFields.contains kv.1)

/-- Python `setattr(instance, attr, value)` as `update` applies it, by
attribute name.  A `user` key would genuinely reassign the owning foreign
key if it ever reached this point; values of a type other than that of the field
cannot arise from a validated payload and leave the instance unchanged.
The `tags`/`ingredients` keys never reach the loop (they are popped first),
so they have no case here. -/
def setattrField (r : Recipe) (k : String) (v : FieldVal) : Recipe :=
  if k = "user" then match v with | .usr u => { r with user := u } | _ => r
  else if k = "title" then match v with | .str s => { r with title := s } | _ => r
  else if k = "time_minutes" then match v with | .int i => { r with time_minutes := i } | _ => r
  else if k = "price" then match v with | .dec d => { r with price := d } | _ => r
  else if k = "description" then match v with | .str s => { r with description := s } | _ => r
  else if k = "link" then match v with | .str s => { r with link := s } | _ => r
  else r

/-- The `tags` block of `update` (`serializers.py` lines 85-87): when the
popped value is a name list (`tags is not None`), clear the tag association
set (`instance.tags.clear()`) and run the reconciler on it; when the key was
absent, do nothing. -/
def updateTagsStep (u : Nat) (inst : Recipe) (ns? : Option (List String)) (db : DB) :
    Recipe × DB :=
  match ns? with
  | some ns =>
      ((getOrCreateTags u ns { inst with tags := ∅ } db.tags).1,
        { db with tags := (getOrCreateTags u ns { inst with tags := ∅ } db.tags).2 })
  | none => (inst, db)

/-- The `ingredients` block of `update` (lines 88-90), identical against the
ingredient association set and table. -/
def updateIngredientsStep (u : Nat) (inst : Recipe) (ns? : Option (List String)) (db : DB) :
    Recipe × DB :=
  match ns? with
  | some ns =>
      ((getOrCreateIngredient u ns { inst with ingredients := ∅ } db.ingredients).1,
        { db with ingredients :=
            (getOrCreateIngredient u ns { inst with ingredients := ∅ } db.ingredients).2 })
  | none => (inst, db)

/-- `RecipeDetailSerializer.update(instance, validated_data)`
(`serializers.py` lines 81-96) as invoked on a PATCH/PUT: `validated_data`
is the validated payload; `tags` and `ingredients` are popped (absent key →
`None`); each present name list clears then repopulates its association set
(the two blocks above, in source order); finally every remaining field is
written with `setattr` and the instance saved. -/
def updateRecipe (u : Nat) (inst : Recipe) (payload : Payload) (db : DB) : Recipe × DB :=
  let vd0 := validate payload
  let s1 := updateTagsStep u inst (popNames vd0 "tags") db
  let s2 := updateIngredientsStep u s1.1 (popNames vd0 "ingredients") s1.2
  ((removeKey (removeKey vd0 "tags") "ingredients").foldl
      (fun r kv => setattrField r kv.1 kv.2) s2.1, s2.2)

/-- `Recipe.objects.create(**validated_data)`: a fresh row with the next
primary key, each field taken from the keyword arguments when present and
left at its unset/blank default otherwise — in particular `user` stays
unassigned (`none`) when no `user` keyword is passed. -/
def recipeObjectsCreate (vd : Payload) (pk : Nat) : Recipe :=
  { id := pk
    user := match lookupKey vd "user" with | some (.usr u) => u | _ => none
    title := match lookupKey vd "title" with | some (.str s) => s | _ => ""
    time_minutes := match lookupKey vd "time_minutes" with | some (.int i) => i | _ => 0
    price := match lookupKey vd "price" with | some (.dec d) => d | _ => 0
    description := match lookupKey vd "description" with | some (.str s) => s | _ => ""
    link := match lookupKey vd "link" with | some (.str s) => s | _ => ""
    tags := ∅
    ingredients := ∅ }

/-- `RecipeDetailSerializer.create(validated_data)` (`serializers.py` lines
71-79) as invoked through `RecipeViewSet`: the viewset defines no
`perform_create` override, so `serializer.save()` passes no extra keyword
arguments and `validated_data` is exactly the validated request payload.
`tags` and `ingredients` are popped (absent key → empty list), the recipe
row is created from the remaining fields, then both reconcilers run for the
authenticated user `u`. -/
def createRecipe (u : Nat) (payload : Payload) (db : DB) (pk : Nat) : Recipe × DB :=
  let vd0 := validate payload
  let tagNames := (popNames vd0 "tags").getD []
  let ingredientNames := (popNames vd0 "ingredients").getD []
  let vd := removeKey (removeKey vd0 "tags") "ingredients"
  let recipe := recipeObjectsCreate vd pk
  let p1 := getOrCreateTags u tagNames recipe db.tags
  let p2 := getOrCreateIngredient u ingredientNames p1.1 db.ingredients
  (p2.1, ⟨p1.2, p2.2⟩)

/-- Field names declared on `core/models.py` class `Recipe` (lines 49-62):
`user`, `title`, `time_minutes`, `price`, `description`, `link`, `tags`.
No `ingredients` field and no `image` field appears in the class body. -/
def recipeModelFields : List String :=
  ["user", "title", "time_minutes", "price", "description", "link", "tags"]

/-- The many-to-many fields among them: only
the `tags` many-to-many field declaration (line 59). -/
def recipeModelM2MFields : List String := ["tags"]

/-- The relation names `RecipeDetailSerializer` attaches to:
`recipe.tags.add(tag_obj)` (line 59) and `recipe.ingredients.add(ingr_obj)`
(line 69) of `serializers.py`. -/
def serializerRelationFields : List String := ["tags", "ingredients"]

/-- Uniqueness constraints declared on `core/models.py` class `Tag` (lines
65-74): the class body holds only `name`, `user` and a string method; no
`Meta` class, hence no `unique_together` or `UniqueConstraint` entry. -/
def tagUniqueConstraints : List (List String) := []

/-- The same for class `Ingredient` (lines 77-86): none declared. -/
def ingredientUniqueConstraints : List (List String) := []

/-- `RecipeViewSet.get_queryset` (`views.py` lines 19-21):
filter the base queryset to the rows whose `user` is the requesting user, order by descending primary key — the
recipes owned by the authenticated user, newest primary key first. -/
def getQueryset (u : Nat) (recipes : List Recipe) : List Recipe :=
  (recipes.filter (fun r => r.user == some u)).insertionSort (fun a b => b.id ≤ a.id)

/-- The `ModelViewSet` object lookup for detail routes (`get_object`): the
element of `get_queryset()` whose primary key matches the URL, else a 404
(`none`). -/
def getObject (u : Nat) (pk : Nat) (recipes : List Recipe) : Option Recipe :=
  (getQueryset u recipes).find? (fun r => r.id == pk)

/-- The primary key that a requested name resolves to for an owner in a given
table state, `0` when the name is absent (only used at states where it is
present). -/
def ridAt (t : TagTable) (u : Nat) (n : String) : Nat :=
  match t.resolve u n with
  | some r => r.id
  | none => 0

/-- Per-owner name uniqueness of a table state: no two rows agree on both
owner and name. -/
def TagTable.UniqueOwnerName (t : TagTable) : Prop :=
  t.rows.Pairwise (fun a b => ¬(a.user = b.user ∧ a.name = b.name))

instance (t : TagTable) : Decidable t.UniqueOwnerName := by
  unfold TagTable.UniqueOwnerName; infer_instance

/-! ### Basic facts about the owner-scoped lookup and `get_or_create` -/

theorem resolve_user_name {t : TagTable} {u : Nat} {n : String} {r : TagRow}
    (h : t.resolve u n = some r) : r.user = u ∧ r.name = n := by
  unfold TagTable.resolve at h
  simpa [Bool.and_eq_true] using List.find?_some h

theorem resolve_mem {t : TagTable} {u : Nat} {n : String} {r : TagRow}
    (h : t.resolve u n = some r) : r ∈ t.rows := by
  unfold TagTable.resolve at h
  exact List.mem_of_find?_eq_some h

theorem getOrCreate_fst_user (u : Nat) (n : String) (t : TagTable) :
    ((getOrCreate u n t).1).user = u := by
  unfold getOrCreate
  split
  · next r h => exact (resolve_user_name h).1
  · rfl

theorem getOrCreate_fst_name (u : Nat) (n : String) (t : TagTable) :
    ((getOrCreate u n t).1).name = n := by
  unfold getOrCreate
  split
  · next r h => exact (resolve_user_name h).2
  · rfl

theorem getOrCreate_rows (u : Nat) (n : String) (t : TagTable) :
    ((getOrCreate u n t).2).rows = t.rows ∨
    ((getOrCreate u n t).2).rows = t.rows ++ [⟨t.nextId, u, n⟩] := by
  unfold getOrCreate
  split
  · exact Or.inl rfl
  · exact Or.inr rfl

theorem getOrCreate_snd_of_resolve_some {t : TagTable} {u : Nat} {n : String} {r : TagRow}
    (h : t.resolve u n = some r) : (getOrCreate u n t).2 = t := by
  unfold getOrCreate
  rw [h]

theorem resolve_stable {t : TagTable} {u : Nat} {m : String} {row : TagRow}
    (h : t.resolve u m = some row) (uc : Nat) (nc : String) :
    ((getOrCreate uc nc t).2).resolve u m = some row := by
  unfold getOrCreate
  split
  · exact h
  · unfold TagTable.resolve at h ⊢
    rw [List.find?_append, h]
    rfl

theorem getOrCreate_resolve_self (u : Nat) (n : String) (t : TagTable) :
    ((getOrCreate u n t).2).resolve u n = some (getOrCreate u n t).1 := by
  unfold getOrCreate
  split
  · next r h => simpa using h
  · next h =>
      unfold TagTable.resolve at h ⊢
      rw [List.find?_append, h]
      simp

theorem getOrCreate_WF {t : TagTable} (hwf : t.WF) (u : Nat) (n : String) :
    ((getOrCreate u n t).2).WF := by
  unfold getOrCreate
  split
  · exact hwf
  · obtain ⟨hlt, hpw⟩ := hwf
    unfold TagTable.WF
    constructor
    · intro r hr
      rcases List.mem_append.mp hr with h | h
      · exact Nat.lt_succ_of_lt (hlt r h)
      · rw [List.mem_singleton.mp h]
        exact Nat.lt_succ_self _
    · rw [List.pairwise_append]
      refine ⟨hpw, List.pairwise_singleton _ _, ?_⟩
      intro a ha b hb
      rw [List.mem_singleton.mp hb]
      exact Nat.ne_of_lt (hlt a ha)

theorem WF_id_inj {t : TagTable} (hwf : t.WF) {a b : TagRow}
    (ha : a ∈ t.rows) (hb : b ∈ t.rows) (hid : a.id = b.id) : a = b := by
  by_contra hne
  have h := List.Pairwise.forall (l := t.rows) (R := fun a b => a.id ≠ b.id)
    (by intro x y hxy; exact Ne.symm hxy) hwf.2 ha hb hne
  exact h hid

/-! ### Facts about a whole reconciliation run -/

theorem getOrCreateTags_fst_user (u : Nat) (L : List String) :
    ∀ (r : Recipe) (t : TagTable), ((getOrCreateTags u L r t).1).user = r.user := by
  induction L with
  | nil => intro r t; rfl
  | cons n rest ih =>
      intro r t
      simp only [getOrCreateTags]
      exact ih _ _

theorem getOrCreateTags_fst_ingredients (u : Nat) (L : List String) :
    ∀ (r : Recipe) (t : TagTable), ((getOrCreateTags u L r t).1).ingredients = r.ingredients := by
  induction L with
  | nil => intro r t; rfl
  | cons n rest ih =>
      intro r t
      simp only [getOrCreateTags]
      exact ih _ _

theorem getOrCreateIngredient_fst_user (u : Nat) (L : List String) :
    ∀ (r : Recipe) (t : TagTable), ((getOrCreateIngredient u L r t).1).user = r.user := by
  induction L with
  | nil => intro r t; rfl
  | cons n rest ih =>
      intro r t
      simp only [getOrCreateIngredient]
      exact ih _ _

theorem getOrCreateIngredient_fst_tags (u : Nat) (L : List String) :
    ∀ (r : Recipe) (t : TagTable), ((getOrCreateIngredient u L r t).1).tags = r.tags := by
  induction L with
  | nil => intro r t; rfl
  | cons n rest ih =>
      intro r t
      simp only [getOrCreateIngredient]
      exact ih _ _

theorem getOrCreateTags_resolve_stable (u : Nat) (L : List String) {uo : Nat} {m : String}
    {row : TagRow} :
    ∀ (r : Recipe) (t : TagTable), t.resolve uo m = some row →
      ((getOrCreateTags u L r t).2).resolve uo m = some row := by
  induction L with
  | nil => intro r t h; exact h
  | cons n rest ih =>
      intro r t h
      simp only [getOrCreateTags]
      exact ih _ _ (resolve_stable h u n)

theorem getOrCreateTags_WF (u : Nat) (L : List String) :
    ∀ (r : Recipe) (t : TagTable), t.WF → ((getOrCreateTags u L r t).2).WF := by
  induction L with
  | nil => intro r t h; exact h
  | cons n rest ih =>
      intro r t h
      simp only [getOrCreateTags]
      exact ih _ _ (getOrCreate_WF h u n)

theorem getOrCreateTags_resolves (u : Nat) (L : List String) :
    ∀ (r : Recipe) (t : TagTable) (n : String), n ∈ L →
      ∃ row, ((getOrCreateTags u L r t).2).resolve u n = some row := by
  induction L with
  | nil => intro r t n h; cases h
  | cons n0 rest ih =>
      intro r t n h
      simp only [getOrCreateTags]
      rcases List.mem_cons.mp h with rfl | h
      · exact ⟨(getOrCreate u n t).1,
          getOrCreateTags_resolve_stable u rest _ _ (getOrCreate_resolve_self u n t)⟩
      · exact ih _ _ n h

theorem getOrCreateTags_tags_char (u : Nat) (L : List String) :
    ∀ (r : Recipe) (t : TagTable),
      ((getOrCreateTags u L r t).1).tags
        = r.tags ∪ L.toFinset.image (fun n => ridAt ((getOrCreateTags u L r t).2) u n) := by
  induction L with
  | nil => intro r t; simp [getOrCreateTags]
  | cons n rest ih =>
      intro r t
      simp only [getOrCreateTags]
      rw [ih]
      have hres : ((getOrCreateTags u rest
            { r with tags := insert (getOrCreate u n t).1.id r.tags }
            (getOrCreate u n t).2).2).resolve u n = some (getOrCreate u n t).1 :=
        getOrCreateTags_resolve_stable u rest _ _ (getOrCreate_resolve_self u n t)
      have hfn : ridAt ((getOrCreateTags u rest
            { r with tags := insert (getOrCreate u n t).1.id r.tags }
            (getOrCreate u n t).2).2) u n = (getOrCreate u n t).1.id := by
        unfold ridAt
        rw [hres]
      rw [List.toFinset_cons, Finset.image_insert]
      simp only [hfn]
      rw [Finset.insert_union, Finset.union_insert]

/-! ### The claims about the reconciler itself -/

/-- C2: for every owner, recipe whose tag association set is empty (the
state in which the serializer always invokes the reconciler: at create, or
right after `instance.tags.clear()`), and requested name list `L` possibly
containing duplicates, running `_get_or_create_tags` on `L` leaves the
recipe associated with exactly as many tags as `L` has distinct names:
duplicates resolve to the same row and are attached once, the association
being a set. -/
theorem C2_reconcile_tag_count (u : Nat) (L : List String) (inst : Recipe) (t : TagTable)
    (hwf : t.WF) (h0 : inst.tags = ∅) :
    ((getOrCreateTags u L inst t).1).tags.card = L.toFinset.card := by
  rw [getOrCreateTags_tags_char, h0, Finset.empty_union]
  apply Finset.card_image_of_injOn
  intro a ha b hb hab
  rw [Finset.mem_coe, List.mem_toFinset] at ha hb
  obtain ⟨ra, hra⟩ := getOrCreateTags_resolves u L inst t a ha
  obtain ⟨rb, hrb⟩ := getOrCreateTags_resolves u L inst t b hb
  have hwf2 := getOrCreateTags_WF u L inst t hwf
  simp only [ridAt, hra, hrb] at hab
  have heq := WF_id_inj hwf2 (resolve_mem hra) (resolve_mem hrb) hab
  rw [← (resolve_user_name hra).2, ← (resolve_user_name hrb).2, heq]

/-- Witness for C2: owner 1 requests the names Thai, Dinner, Thai on a fresh
recipe against an empty table; the recipe ends with two associated tags. -/
theorem C2_witness :
    TagTable.WF ⟨[], 1⟩ ∧ (Recipe.mk 1 (some 1) "Curry" 22 525 "" "" ∅ ∅).tags = ∅ ∧
    ((getOrCreateTags 1 ["Thai", "Dinner", "Thai"]
        (Recipe.mk 1 (some 1) "Curry" 22 525 "" "" ∅ ∅) ⟨[], 1⟩).1).tags.card
      = (["Thai", "Dinner", "Thai"] : List String).toFinset.card :=
  ⟨by decide, rfl,
    C2_reconcile_tag_count 1 ["Thai", "Dinner", "Thai"] _ _ (by decide) rfl⟩

/-- C3: tag creation is idempotent per owner and name.  Running the
reconciliation a second time with the same name for the same owner leaves
the tag table exactly as the first run left it (the second run resolves the
existing row instead of creating one), and when the name was absent to begin
with the first run created exactly one row. -/
theorem C3_idempotent_creation (u : Nat) (n : String) (inst inst2 : Recipe) (t : TagTable) :
    ((getOrCreateTags u [n] inst2 ((getOrCreateTags u [n] inst t).2)).2)
      = (getOrCreateTags u [n] inst t).2
    ∧ (t.resolve u n = none →
        ((getOrCreateTags u [n] inst t).2).rows.length = t.rows.length + 1) := by
  constructor
  · show ((getOrCreate u n ((getOrCreate u n t).2)).2) = (getOrCreate u n t).2
    exact getOrCreate_snd_of_resolve_some (getOrCreate_resolve_self u n t)
  · intro h
    show ((getOrCreate u n t).2).rows.length = t.rows.length + 1
    unfold getOrCreate
    rw [h]
    simp

/-- Witness for C3: owner 1 references the name Thai twice against an empty
table; the second run leaves the single created row alone. -/
theorem C3_witness :
    TagTable.resolve ⟨[], 1⟩ 1 "Thai" = none ∧
    ((getOrCreateTags 1 ["Thai"] (Recipe.mk 2 (some 1) "Soup" 5 100 "" "" ∅ ∅)
        ((getOrCreateTags 1 ["Thai"] (Recipe.mk 1 (some 1) "Curry" 22 525 "" "" ∅ ∅)
          ⟨[], 1⟩).2)).2)
      = (getOrCreateTags 1 ["Thai"] (Recipe.mk 1 (some 1) "Curry" 22 525 "" "" ∅ ∅) ⟨[], 1⟩).2
    ∧ ((getOrCreateTags 1 ["Thai"] (Recipe.mk 1 (some 1) "Curry" 22 525 "" "" ∅ ∅)
        ⟨[], 1⟩).2).rows.length = 1 :=
  ⟨rfl,
    (C3_idempotent_creation 1 "Thai" (Recipe.mk 1 (some 1) "Curry" 22 525 "" "" ∅ ∅)
      (Recipe.mk 2 (some 1) "Soup" 5 100 "" "" ∅ ∅) ⟨[], 1⟩).1,
    (C3_idempotent_creation 1 "Thai" (Recipe.mk 1 (some 1) "Curry" 22 525 "" "" ∅ ∅)
      (Recipe.mk 2 (some 1) "Soup" 5 100 "" "" ∅ ∅) ⟨[], 1⟩).2 rfl⟩

/-- C4: the lookup is an exact, case-sensitive name match scoped to the
requesting owner — every row it returns carries literally the requested
owner and the requested name string — and the row obtained by a second,
different owner for the same name (in any table state, e.g. after the first
owner created theirs) is a distinct row. -/
theorem C4_owner_scoped_exact (u1 u2 : Nat) (n : String) (t1 t2 : TagTable) (h : u1 ≠ u2) :
    (∀ r, t1.resolve u1 n = some r → r.user = u1 ∧ r.name = n)
    ∧ (getOrCreate u1 n t1).1.user = u1 ∧ (getOrCreate u1 n t1).1.name = n
    ∧ (getOrCreate u2 n t2).1 ≠ (getOrCreate u1 n t1).1 := by
  refine ⟨fun r hr => resolve_user_name hr,
    getOrCreate_fst_user u1 n t1, getOrCreate_fst_name u1 n t1, ?_⟩
  intro he
  apply h
  rw [← getOrCreate_fst_user u1 n t1, ← getOrCreate_fst_user u2 n t2, he]

/-- Witness for C4: owners 1 and 2 both request the name Thai; owner 2 works
on the very table owner 1 just extended, and still gets a different row. -/
theorem C4_witness :
    (1 : Nat) ≠ 2
    ∧ ((∀ r, TagTable.resolve ⟨[], 1⟩ 1 "Thai" = some r → r.user = 1 ∧ r.name = "Thai")
      ∧ (getOrCreate 1 "Thai" ⟨[], 1⟩).1.user = 1
      ∧ (getOrCreate 1 "Thai" ⟨[], 1⟩).1.name = "Thai"
      ∧ (getOrCreate 2 "Thai" ((getOrCreate 1 "Thai" ⟨[], 1⟩).2)).1
          ≠ (getOrCreate 1 "Thai" ⟨[], 1⟩).1) :=
  ⟨by decide, C4_owner_scoped_exact 1 2 "Thai" ⟨[], 1⟩ ((getOrCreate 1 "Thai" ⟨[], 1⟩).2)
    (by decide)⟩

/-! ### Payload plumbing -/

theorem writable_ne_user : ∀ x ∈ writableFields, x ≠ "user" := by decide

theorem mem_validate {p : Payload} {kv : String × FieldVal} (h : kv ∈ validate p) :
    kv.1 ∈ writableFields := by
  unfold validate at h
  have hc := List.of_mem_filter h
  exact List.mem_of_elem_eq_true hc

theorem mem_validate_mem {p : Payload} {kv : String × FieldVal} (h : kv ∈ validate p) :
    kv ∈ p :=
  List.mem_of_mem_filter h

theorem mem_validate_ne_user {p : Payload} {kv : String × FieldVal} (h : kv ∈ validate p) :
    kv.1 ≠ "user" :=
  writable_ne_user kv.1 (mem_validate h)

theorem mem_of_removeKey {p : Payload} {k : String} {kv : String × FieldVal}
    (h : kv ∈ removeKey p k) : kv ∈ p :=
  List.mem_of_mem_filter h

theorem lookupKey_eq_none {p : Payload} {k : String} (h : ∀ kv ∈ p, kv.1 ≠ k) :
    lookupKey p k = none := by
  unfold lookupKey
  rw [List.find?_eq_none.mpr]
  · rfl
  · intro kv hkv
    simpa using h kv hkv

theorem popNames_eq_none {p : Payload} {k : String} (h : ∀ kv ∈ p, kv.1 ≠ k) :
    popNames p k = none := by
  unfold popNames
  rw [lookupKey_eq_none h]

theorem validate_cons_of_writable {k : String} (v : FieldVal) (p : Payload)
    (h : writableFields.contains k = true) :
    validate ((k, v) :: p) = (k, v) :: validate p := by
  unfold validate
  rw [List.filter_cons]
  simp [h, List.mem_of_elem_eq_true h]

theorem popNames_cons_self (k : String) (L : List String) (p : Payload) :
    popNames ((k, FieldVal.names L) :: p) k = some L := by
  unfold popNames lookupKey
  simp [List.find?_cons]

/-! ### `setattr` frame facts -/

theorem setattrField_tags (r : Recipe) (k : String) (v : FieldVal) :
    (setattrField r k v).tags = r.tags := by
  unfold setattrField
  repeat' split
  all_goals rfl

theorem setattrField_ingredients (r : Recipe) (k : String) (v : FieldVal) :
    (setattrField r k v).ingredients = r.ingredients := by
  unfold setattrField
  repeat' split
  all_goals rfl

theorem setattrField_user (r : Recipe) (k : String) (v : FieldVal) (hk : k ≠ "user") :
    (setattrField r k v).user = r.user := by
  unfold setattrField
  repeat' split
  all_goals first
    | rfl
    | (exfalso; apply hk; assumption)

theorem foldl_setattr_tags (l : Payload) :
    ∀ r : Recipe, (l.foldl (fun r kv => setattrField r kv.1 kv.2) r).tags = r.tags := by
  induction l with
  | nil => intro r; rfl
  | cons kv rest ih =>
      intro r
      rw [List.foldl_cons, ih, setattrField_tags]

theorem foldl_setattr_ingredients (l : Payload) :
    ∀ r : Recipe, (l.foldl (fun r kv => setattrField r kv.1 kv.2) r).ingredients
      = r.ingredients := by
  induction l with
  | nil => intro r; rfl
  | cons kv rest ih =>
      intro r
      rw [List.foldl_cons, ih, setattrField_ingredients]

theorem foldl_setattr_user (l : Payload) :
    ∀ r : Recipe, (∀ kv ∈ l, kv.1 ≠ "user") →
      (l.foldl (fun r kv => setattrField r kv.1 kv.2) r).user = r.user := by
  induction l with
  | nil => intro r _; rfl
  | cons kv rest ih =>
      intro r h
      rw [List.foldl_cons, ih _ (fun kv hkv => h kv (List.mem_cons_of_mem _ hkv)),
        setattrField_user _ _ _ (h kv (List.mem_cons_self _ _))]

/-! ### Frame facts about the two update blocks -/

theorem updateTagsStep_fst_user (u : Nat) (inst : Recipe) (o : Option (List String)) (db : DB) :
    (updateTagsStep u inst o db).1.user = inst.user := by
  cases o with
  | none => rfl
  | some ns =>
      show ((getOrCreateTags u ns { inst with tags := ∅ } db.tags).1).user = inst.user
      rw [getOrCreateTags_fst_user]

theorem updateTagsStep_fst_ingredients (u : Nat) (inst : Recipe) (o : Option (List String))
    (db : DB) : (updateTagsStep u inst o db).1.ingredients = inst.ingredients := by
  cases o with
  | none => rfl
  | some ns =>
      show ((getOrCreateTags u ns { inst with tags := ∅ } db.tags).1).ingredients
        = inst.ingredients
      rw [getOrCreateTags_fst_ingredients]

theorem updateIngredientsStep_fst_user (u : Nat) (inst : Recipe) (o : Option (List String))
    (db : DB) : (updateIngredientsStep u inst o db).1.user = inst.user := by
  cases o with
  | none => rfl
  | some ns =>
      show ((getOrCreateIngredient u ns { inst with ingredients := ∅ } db.ingredients).1).user
        = inst.user
      rw [getOrCreateIngredient_fst_user]

theorem updateIngredientsStep_fst_tags (u : Nat) (inst : Recipe) (o : Option (List String))
    (db : DB) : (updateIngredientsStep u inst o db).1.tags = inst.tags := by
  cases o with
  | none => rfl
  | some ns =>
      show ((getOrCreateIngredient u ns { inst with ingredients := ∅ } db.ingredients).1).tags
        = inst.tags
      rw [getOrCreateIngredient_fst_tags]

theorem updateIngredientsStep_snd_tags (u : Nat) (inst : Recipe) (o : Option (List String))
    (db : DB) : (updateIngredientsStep u inst o db).2.tags = db.tags := by
  cases o with
  | none => rfl
  | some ns => rfl

theorem updateTagsStep_none (u : Nat) (inst : Recipe) (db : DB) :
    updateTagsStep u inst none db = (inst, db) := rfl

theorem updateIngredientsStep_none (u : Nat) (inst : Recipe) (db : DB) :
    updateIngredientsStep u inst none db = (inst, db) := rfl

theorem updateTagsStep_some_nil (u : Nat) (inst : Recipe) (db : DB) :
    updateTagsStep u inst (some []) db = ({ inst with tags := ∅ }, db) := rfl

/-! ### The claims about `update` and `create` -/

/-- C5: an update whose payload carries the key `tags` with an empty name
list leaves the recipe with an empty tag association set, while the tag
table itself — every underlying `Tag` row — is left exactly as it was:
rows are detached, never deleted. -/
theorem C5_empty_tags_clears_associations_only (u : Nat) (inst : Recipe) (rest : Payload)
    (db : DB) :
    ((updateRecipe u inst (("tags", FieldVal.names []) :: rest) db).1).tags = ∅
    ∧ ((updateRecipe u inst (("tags", FieldVal.names []) :: rest) db).2).tags = db.tags := by
  have hv : validate (("tags", FieldVal.names []) :: rest)
      = ("tags", FieldVal.names []) :: validate rest :=
    validate_cons_of_writable _ _ (by decide)
  simp only [updateRecipe, hv, popNames_cons_self, updateTagsStep_some_nil]
  constructor
  · rw [foldl_setattr_tags, updateIngredientsStep_fst_tags]
  · rw [updateIngredientsStep_snd_tags]

/-- C6: an update whose payload lacks the `tags` key leaves the tag
association set of the recipe untouched, and likewise for the
`ingredients` key and the ingredient association set. -/
theorem C6_absent_key_leaves_associations (u : Nat) (inst : Recipe) (payload : Payload)
    (db : DB) :
    ((∀ kv ∈ payload, kv.1 ≠ "tags") →
      ((updateRecipe u inst payload db).1).tags = inst.tags)
    ∧ ((∀ kv ∈ payload, kv.1 ≠ "ingredients") →
      ((updateRecipe u inst payload db).1).ingredients = inst.ingredients) := by
  constructor
  · intro h
    have hp : popNames (validate payload) "tags" = none :=
      popNames_eq_none (fun kv hkv => h kv (mem_validate_mem hkv))
    simp only [updateRecipe, hp, updateTagsStep_none]
    rw [foldl_setattr_tags, updateIngredientsStep_fst_tags]
  · intro h
    have hp : popNames (validate payload) "ingredients" = none :=
      popNames_eq_none (fun kv hkv => h kv (mem_validate_mem hkv))
    simp only [updateRecipe, hp, updateIngredientsStep_none]
    rw [foldl_setattr_ingredients, updateTagsStep_fst_ingredients]

/-- Witness for C6: a payload that only renames the recipe leaves both
association sets (one tag, one ingredient) exactly as they were. -/
theorem C6_witness :
    (∀ kv ∈ ([("title", FieldVal.str "New")] : Payload), kv.1 ≠ "tags")
    ∧ (∀ kv ∈ ([("title", FieldVal.str "New")] : Payload), kv.1 ≠ "ingredients")
    ∧ ((updateRecipe 1 (Recipe.mk 1 (some 1) "Curry" 22 525 "" "" {7} {9})
          [("title", FieldVal.str "New")]
          ⟨⟨[⟨7, 1, "Thai"⟩], 8⟩, ⟨[⟨9, 1, "Salt"⟩], 10⟩⟩).1).tags
        = (Recipe.mk 1 (some 1) "Curry" 22 525 "" "" {7} {9}).tags
    ∧ ((updateRecipe 1 (Recipe.mk 1 (some 1) "Curry" 22 525 "" "" {7} {9})
          [("title", FieldVal.str "New")]
          ⟨⟨[⟨7, 1, "Thai"⟩], 8⟩, ⟨[⟨9, 1, "Salt"⟩], 10⟩⟩).1).ingredients
        = (Recipe.mk 1 (some 1) "Curry" 22 525 "" "" {7} {9}).ingredients := by
  have h := C6_absent_key_leaves_associations 1
    (Recipe.mk 1 (some 1) "Curry" 22 525 "" "" {7} {9})
    [("title", FieldVal.str "New")]
    ⟨⟨[⟨7, 1, "Thai"⟩], 8⟩, ⟨[⟨9, 1, "Salt"⟩], 10⟩⟩
  exact ⟨by decide, by decide, h.1 (by decide), h.2 (by decide)⟩

/-- C7: the owner of a recipe is immutable under `update` — for every
payload, even one carrying a `user` key (which validation drops, it not
being among the declared writable fields), the owner after the update is
the owner before it. -/
theorem C7_owner_immutable (u : Nat) (inst : Recipe) (payload : Payload) (db : DB) :
    ((updateRecipe u inst payload db).1).user = inst.user := by
  have hk : ∀ kv ∈ removeKey (removeKey (validate payload) "tags") "ingredients",
      kv.1 ≠ "user" :=
    fun kv hkv => mem_validate_ne_user (mem_of_removeKey (mem_of_removeKey hkv))
  simp only [updateRecipe]
  rw [foldl_setattr_user _ _ hk, updateIngredientsStep_fst_user, updateTagsStep_fst_user]

/-- C10: the `create` path never sets the owner from the authenticated
requester: the validated payload can never carry a `user` key (the field is
not among the declared writable fields, and the viewset adds no extra save
keyword arguments), so the created row has no owner assigned at all. -/
theorem C10_create_never_sets_owner (u : Nat) (payload : Payload) (db : DB) (pk : Nat) :
    (∀ kv ∈ validate payload, kv.1 ≠ "user")
    ∧ ((createRecipe u payload db pk).1).user = none := by
  refine ⟨fun kv h => mem_validate_ne_user h, ?_⟩
  simp only [createRecipe]
  rw [getOrCreateIngredient_fst_user, getOrCreateTags_fst_user]
  have hn : lookupKey (removeKey (removeKey (validate payload) "tags") "ingredients") "user"
      = none :=
    lookupKey_eq_none
      (fun kv hkv => mem_validate_ne_user (mem_of_removeKey (mem_of_removeKey hkv)))
  simp [recipeObjectsCreate, hn]

/-! ### The model-schema claims -/

/-- C1 (code divergence): the serializer layer attaches resolved rows to
both a `tags` and an `ingredients` relation of the recipe, but class
`Recipe` of `core/models.py` declares only the `tags` many-to-many field —
no `ingredients` field of any kind appears among its declared fields, so
the second, independent many-to-many relationship the claim (and the test
suite of the repository) requires is missing from the model. -/
theorem C1_model_missing_ingredients :
    "tags" ∈ serializerRelationFields ∧ "ingredients" ∈ serializerRelationFields
    ∧ "tags" ∈ recipeModelM2MFields
    ∧ "ingredients" ∉ recipeModelM2MFields ∧ "ingredients" ∉ recipeModelFields := by
  decide

/-- C8 counterexample: contrary to the claim, neither relation table
declares a unique constraint on the (owner, name) pair — the constraint
sets transcribed from `core/models.py` are empty. -/
theorem C8_counterexample :
    ¬ (["user", "name"] ∈ tagUniqueConstraints
        ∧ ["user", "name"] ∈ ingredientUniqueConstraints) := by
  decide

theorem getOrCreate_UniqueOwnerName {t : TagTable} (h : t.UniqueOwnerName)
    (u : Nat) (n : String) : ((getOrCreate u n t).2).UniqueOwnerName := by
  unfold getOrCreate
  split
  · exact h
  · next hres =>
      unfold TagTable.UniqueOwnerName at h ⊢
      rw [List.pairwise_append]
      refine ⟨h, List.pairwise_singleton _ _, ?_⟩
      intro a ha b hb
      rw [List.mem_singleton.mp hb]
      unfold TagTable.resolve at hres
      have hfa := List.find?_eq_none.mp hres a ha
      intro hc
      apply hfa
      have h1 : a.user = u := hc.1
      have h2 : a.name = n := hc.2
      simp [h1, h2]

theorem getOrCreateTags_UniqueOwnerName (u : Nat) (L : List String) :
    ∀ (r : Recipe) (t : TagTable), t.UniqueOwnerName →
      ((getOrCreateTags u L r t).2).UniqueOwnerName := by
  induction L with
  | nil => intro r t h; exact h
  | cons n rest ih =>
      intro r t h
      simp only [getOrCreateTags]
      exact ih _ _ (getOrCreate_UniqueOwnerName h u n)

theorem getOrCreateIngredient_snd_eq (u : Nat) (L : List String) :
    ∀ (r r2 : Recipe) (t : TagTable),
      (getOrCreateIngredient u L r t).2 = (getOrCreateTags u L r2 t).2 := by
  induction L with
  | nil => intro r r2 t; rfl
  | cons n rest ih =>
      intro r r2 t
      simp only [getOrCreateIngredient, getOrCreateTags]
      exact ih _ _ _

/-- C8 amended: neither `Tag` nor `Ingredient` declares a unique constraint
on (owner, name); instead, per-owner name uniqueness is an invariant the
reconciler itself preserves, since its get-or-create never inserts a row
whose owner and name pair already exists (nothing in the schema guards the
concurrent-creation race the constraint was claimed to prevent). -/
theorem C8_amended_no_constraint_invariant_preserved (u : Nat) (L : List String)
    (r r2 : Recipe) (t : TagTable) (h : t.UniqueOwnerName) :
    tagUniqueConstraints = [] ∧ ingredientUniqueConstraints = []
    ∧ ((getOrCreateTags u L r t).2).UniqueOwnerName
    ∧ ((getOrCreateIngredient u L r2 t).2).UniqueOwnerName := by
  refine ⟨rfl, rfl, getOrCreateTags_UniqueOwnerName u L r t h, ?_⟩
  rw [getOrCreateIngredient_snd_eq u L r2 r t]
  exact getOrCreateTags_UniqueOwnerName u L r t h

/-- Witness for the amended C8 at a concrete input: a duplicated name list
against an empty table. -/
theorem C8_amended_witness :
    TagTable.UniqueOwnerName ⟨[], 1⟩
    ∧ (tagUniqueConstraints = [] ∧ ingredientUniqueConstraints = []
      ∧ ((getOrCreateTags 1 ["Thai", "Thai"]
            (Recipe.mk 1 (some 1) "Curry" 22 525 "" "" ∅ ∅) ⟨[], 1⟩).2).UniqueOwnerName
      ∧ ((getOrCreateIngredient 1 ["Thai", "Thai"]
            (Recipe.mk 1 (some 1) "Curry" 22 525 "" "" ∅ ∅) ⟨[], 1⟩).2).UniqueOwnerName) :=
  ⟨by decide, C8_amended_no_constraint_invariant_preserved 1 ["Thai", "Thai"]
    (Recipe.mk 1 (some 1) "Curry" 22 525 "" "" ∅ ∅)
    (Recipe.mk 1 (some 1) "Curry" 22 525 "" "" ∅ ∅) ⟨[], 1⟩ (by decide)⟩

/-! ### The view-layer claim -/

theorem recipes_id_inj {l : List Recipe} (h : l.Pairwise (fun a b => a.id ≠ b.id))
    {a b : Recipe} (ha : a ∈ l) (hb : b ∈ l) (hab : a.id = b.id) : a = b := by
  by_contra hne
  have hp := List.Pairwise.forall (l := l) (R := fun a b => a.id ≠ b.id)
    (by intro x y hxy; exact Ne.symm hxy) h ha hb hne
  exact hp hab

/-- C9: operating on the id of a recipe the requester does not own yields
the same not-found result (`none`, surfaced as a 404) as operating on an id
that does not exist at all — the filtered queryset never reveals existence
to a non-owner. -/
theorem C9_non_owner_not_found (u : Nat) (recipes : List Recipe)
    (hwf : recipes.Pairwise (fun a b => a.id ≠ b.id)) (r : Recipe)
    (hr : r ∈ recipes) (hu : r.user ≠ some u) :
    getObject u r.id recipes = none
    ∧ ∀ pk, (∀ s ∈ recipes, s.id ≠ pk) → getObject u pk recipes = none := by
  constructor
  · unfold getObject getQueryset
    refine List.find?_eq_none.mpr ?_
    intro x hx
    have hmem := (List.mem_insertionSort _).mp hx
    have hxin := (List.mem_filter.mp hmem).1
    have hxu : x.user = some u := by simpa using (List.mem_filter.mp hmem).2
    intro hbeq
    have hid : x.id = r.id := by simpa using hbeq
    rw [recipes_id_inj hwf hxin hr hid] at hxu
    exact hu hxu
  · intro pk hpk
    unfold getObject getQueryset
    refine List.find?_eq_none.mpr ?_
    intro x hx
    have hmem := (List.mem_insertionSort _).mp hx
    intro hbeq
    exact hpk x (List.mem_filter.mp hmem).1 (by simpa using hbeq)

/-- Witness for C9: requester 1 looks up the recipe with primary key 5 that
belongs to owner 2, and gets the 404 result. -/
theorem C9_witness :
    ([Recipe.mk 5 (some 2) "Their recipe" 10 100 "" "" ∅ ∅] : List Recipe).Pairwise
        (fun a b => a.id ≠ b.id)
    ∧ Recipe.mk 5 (some 2) "Their recipe" 10 100 "" "" ∅ ∅
        ∈ [Recipe.mk 5 (some 2) "Their recipe" 10 100 "" "" ∅ ∅]
    ∧ (Recipe.mk 5 (some 2) "Their recipe" 10 100 "" "" ∅ ∅).user ≠ some 1
    ∧ getObject 1 5 [Recipe.mk 5 (some 2) "Their recipe" 10 100 "" "" ∅ ∅] = none := by
  refine ⟨List.pairwise_singleton _ _, List.mem_singleton.mpr rfl, by decide, ?_⟩
  exact (C9_non_owner_not_found 1 [Recipe.mk 5 (some 2) "Their recipe" 10 100 "" "" ∅ ∅]
    (List.pairwise_singleton _ _) (Recipe.mk 5 (some 2) "Their recipe" 10 100 "" "" ∅ ∅)
    (List.mem_singleton.mpr rfl) (by decide)).1

end RecipeApp
